import Mathlib

/-!
Verification of `egui_extras::sizing` (`src/crates/egui_extras/src/sizing.rs`).

The `f32` arithmetic of the source is embedded as exact rational arithmetic
(`ℚ`), with `f32::INFINITY` (used only as a range upper bound) embedded as
`Option ℚ` (`none` = `+∞`).  `f32::floor` becomes `Int.floor`.  The fatal
`assert!` on relative fractions is embedded by returning `Option`:
`none` models the panic.
-/

/-- Modelled from the spec: the `Rangef` utility comes from the `egui` crate,
which is not part of the sources; the spec describes it as a pair
`(min, max)` with `min ≤ max` assumed, whose `clamp(value)` restricts `value`
into `[min, max]`.  `max = none` stands for `+∞`. -/
structure Rangef where
  min : ℚ
  max : Option ℚ
  deriving DecidableEq, Repr

/-- Modelled from the spec: `clamp` restricts a value into `[min, max]`
(for `min ≤ max` this is `min(max, max(min, value))`). -/
def Rangef.clamp (r : Rangef) (value : ℚ) : ℚ :=
  match r.max with
  | none => Max.max r.min value
  | some m => Min.min m (Max.max r.min value)

/-- `Rangef::new(min, max)` with a finite upper bound. -/
def Rangef.new (min max : ℚ) : Rangef := ⟨min, some max⟩

/-- `Rangef::new(min, f32::INFINITY)`. -/
def Rangef.newInf (min : ℚ) : Rangef := ⟨min, none⟩

/-- The `Size` enum of `sizing.rs`: size hint for a table column / strip cell. -/
inductive Size where
  | Absolute (initial : ℚ) (range : Rangef)
  | Relative (fraction : ℚ) (range : Rangef)
  | Remainder (range : Rangef)
  deriving DecidableEq, Repr

namespace Size

/-- `Size::exact(points)`: `Absolute` with range `[points, points]`. -/
def exact (points : ℚ) : Size :=
  .Absolute points (Rangef.new points points)

/-- `Size::initial(points)`: `Absolute` with range `[0, ∞)`. -/
def initial (points : ℚ) : Size :=
  .Absolute points (Rangef.newInf 0)

/-- The condition of the `debug_assert!` in `Size::relative` (and of the
`assert!` in `Sizing::to_lengths`): the fraction lies in `[0, 1]`. -/
def fractionInRange (fraction : ℚ) : Prop :=
  0 ≤ fraction ∧ fraction ≤ 1

instance (fraction : ℚ) : Decidable (fractionInRange fraction) := by
  unfold fractionInRange; infer_instance

/-- `Size::relative(fraction)`: `Relative` with range `[0, ∞)`.
The debug-only assertion is modelled by the separate predicate
`Size.fractionInRange`; the value is constructed regardless, as in a
release build. -/
def relative (fraction : ℚ) : Size :=
  .Relative fraction (Rangef.newInf 0)

/-- `Size::remainder()`: `Remainder` with range `[0, ∞)`. -/
def remainder : Size :=
  .Remainder (Rangef.newInf 0)

/-- `Size::range`, the uniform range accessor over the three variants. -/
def range : Size → Rangef
  | .Absolute _ r => r
  | .Relative _ r => r
  | .Remainder r => r

/-- `Size::at_least(minimum)`: replace the range's `min`. -/
def at_least (s : Size) (minimum : ℚ) : Size :=
  match s with
  | .Absolute i r => .Absolute i ⟨minimum, r.max⟩
  | .Relative f r => .Relative f ⟨minimum, r.max⟩
  | .Remainder r => .Remainder ⟨minimum, r.max⟩

/-- `Size::at_most(maximum)`: replace the range's `max`. -/
def at_most (s : Size) (maximum : ℚ) : Size :=
  match s with
  | .Absolute i r => .Absolute i ⟨r.min, some maximum⟩
  | .Relative f r => .Relative f ⟨r.min, some maximum⟩
  | .Remainder r => .Remainder ⟨r.min, some maximum⟩

/-- `Size::with_range(range)`: replace the whole range. -/
def with_range (s : Size) (range : Rangef) : Size :=
  match s with
  | .Absolute i _ => .Absolute i range
  | .Relative f _ => .Relative f range
  | .Remainder _ => .Remainder range

/-- `Size::is_remainder`. -/
def is_remainder : Size → Bool
  | .Remainder _ => true
  | _ => false

end Size

namespace Sizing

/-- Whether every `Relative` fraction in the list satisfies the `assert!`
inside `Sizing::to_lengths` (outside `[0, 1]` the assert panics). -/
def fractionsOk (sizes : List Size) : Bool :=
  sizes.all fun s =>
    match s with
    | .Relative fraction _ => decide (Size.fractionInRange fraction)
    | _ => true

/-- One slot's contribution to `sum_non_remainder` in `Sizing::to_lengths`:
`Absolute → initial`, `Relative → range.clamp(length * fraction)`,
`Remainder → 0`. -/
def contribution (length : ℚ) : Size → ℚ
  | .Absolute i _ => i
  | .Relative fraction range => range.clamp (length * fraction)
  | .Remainder _ => 0

/-- The `num_remainders` count accumulated by the first pass of
`Sizing::to_lengths`. -/
def numRemainders (sizes : List Size) : ℕ :=
  (sizes.filter Size.is_remainder).length

/-- `sum_non_remainder` of `Sizing::to_lengths`: the mapped sum plus
`spacing * (len - 1)` (the `usize` subtraction is mirrored by `ℕ`
subtraction). -/
def sumNonRemainder (sizes : List Size) (length spacing : ℚ) : ℚ :=
  (sizes.map (contribution length)).sum + spacing * ((sizes.length - 1 : ℕ) : ℚ)

/-- The exclusion sweep of `Sizing::to_lengths`: one in-order pass over the
slots; each `Remainder` slot whose `range.min` exceeds `avg` subtracts its
`range.min` from the running `remainder_length` and decrements the running
`num_remainders` (the comparison always uses the original `avg`). -/
def sweep (avg : ℚ) : List Size → ℚ × ℕ → ℚ × ℕ
  | [], acc => acc
  | s :: rest, (remainder_length, num_remainders) =>
    match s with
    | .Remainder range =>
        if avg < range.min then
          sweep avg rest (remainder_length - range.min, num_remainders - 1)
        else
          sweep avg rest (remainder_length, num_remainders)
    | _ => sweep avg rest (remainder_length, num_remainders)

/-- The initial `remainder_length` of `Sizing::to_lengths`:
`length - sum_non_remainder`. -/
def remainderBudget (sizes : List Size) (length spacing : ℚ) : ℚ :=
  length - sumNonRemainder sizes length spacing

/-- The pre-sweep `avg` of `Sizing::to_lengths`:
`0.0f32.max(remainder_length / num_remainders as f32).floor()`. -/
def initialAvg (sizes : List Size) (length spacing : ℚ) : ℚ :=
  ((⌊Max.max 0 (remainderBudget sizes length spacing / (numRemainders sizes : ℚ))⌋ : ℤ) : ℚ)

/-- The `avg_remainder_length` computed by `Sizing::to_lengths`: `0` when
there are no `Remainder` slots; otherwise the floored nonnegative average of
the remainder budget, corrected by the single exclusion sweep, and left
un-floored (only forced `≥ 0`) after the sweep. -/
def avgRemainderLength (sizes : List Size) (length spacing : ℚ) : ℚ :=
  let num_remainders := numRemainders sizes
  if num_remainders = 0 then 0
  else
    let remainder_length := remainderBudget sizes length spacing
    let avg : ℚ := initialAvg sizes length spacing
    let res := sweep avg sizes (remainder_length, num_remainders)
    if 0 < res.2 then Max.max 0 (res.1 / (res.2 : ℚ)) else 0

/-- One slot's entry in the output list of `Sizing::to_lengths`, given the
shared `avg_remainder_length`. -/
def slotLength (length avg_remainder_length : ℚ) : Size → ℚ
  | .Absolute i _ => i
  | .Relative fraction range => range.clamp (length * fraction)
  | .Remainder range => range.clamp avg_remainder_length

/-- `Sizing::to_lengths`: `none` models the fatal fraction assertion;
otherwise the ordered list of lengths, one per slot. -/
def to_lengths (sizes : List Size) (length spacing : ℚ) : Option (List ℚ) :=
  if sizes.isEmpty then some []
  else if fractionsOk sizes then
    some (sizes.map (slotLength length (avgRemainderLength sizes length spacing)))
  else none

/-- Spec-side (claim C1 wording): the sum of `Absolute` initials. -/
def specAbsSum (sizes : List Size) : ℚ :=
  (sizes.filterMap fun s =>
    match s with
    | .Absolute i _ => some i
    | _ => none).sum

/-- Spec-side (claim C1 wording): the sum of range-clamped `Relative` sizes. -/
def specRelSum (sizes : List Size) (length : ℚ) : ℚ :=
  (sizes.filterMap fun s =>
    match s with
    | .Relative f r => some (r.clamp (length * f))
    | _ => none).sum

/-- Spec-side (claim C1 wording): `budget = total_length` minus the sum of
`Absolute` initials and range-clamped `Relative` sizes minus
`spacing * (slot_count - 1)`. -/
def specBudget (sizes : List Size) (length spacing : ℚ) : ℚ :=
  length - specAbsSum sizes - specRelSum sizes length -
    spacing * ((sizes.length : ℚ) - 1)

/-- Spec-side (claim C1 wording): the initial average
`max(0, floor(budget / num_remainders))`. -/
def specInitialAvg (sizes : List Size) (length spacing : ℚ) : ℚ :=
  Max.max 0 ((⌊specBudget sizes length spacing / (numRemainders sizes : ℚ)⌋ : ℤ) : ℚ)

/-- Spec-side (claim C1 wording): the `range.min` values of the `Remainder`
slots whose `range.min` exceeds the original initial average `a`, in slot
order. -/
def specExcludedMins (a : ℚ) (sizes : List Size) : List ℚ :=
  sizes.filterMap fun s =>
    match s with
    | .Remainder r => if a < r.min then some r.min else none
    | _ => none

/-- Spec-side (claim C1 wording): the number of `Remainder` slots that
survive the exclusion sweep. -/
def specSurvivors (a : ℚ) (sizes : List Size) : ℕ :=
  numRemainders sizes - (specExcludedMins a sizes).length

/-- Spec-side (claim C1 wording): the final shared average: the budget less
the excluded minimums, divided (un-floored, forced `≥ 0`) by the surviving
count if any slot survives, else `0`. -/
def specFinalAvg (sizes : List Size) (length spacing : ℚ) : ℚ :=
  let a := specInitialAvg sizes length spacing
  let b := specBudget sizes length spacing - (specExcludedMins a sizes).sum
  if 0 < specSurvivors a sizes then Max.max 0 (b / (specSurvivors a sizes : ℚ)) else 0

/-- The `Relative` fraction of a slot, `0` for the other variants. -/
def sizeFrac : Size → ℚ
  | .Relative f _ => f
  | _ => 0

/-- The sum of the `Relative` fractions of a policy list (used by the
amended monotonicity claim). -/
def relFracSum (sizes : List Size) : ℚ :=
  (sizes.map sizeFrac).sum

end Sizing

namespace Sizing

theorem fractionsOk_iff (sizes : List Size) :
    fractionsOk sizes = true ↔
      ∀ f r, Size.Relative f r ∈ sizes → Size.fractionInRange f := by
  unfold fractionsOk
  rw [List.all_eq_true]
  constructor
  · intro h f r hfr
    have := h _ hfr
    simpa using this
  · intro h s hs
    cases s with
    | Relative f r => simpa using h f r hs
    | Absolute i r => rfl
    | Remainder r => rfl

theorem specAbsSum_cons (s : Size) (rest : List Size) :
    specAbsSum (s :: rest) =
      (match s with | .Absolute i _ => i | _ => 0) + specAbsSum rest := by
  cases s <;> simp [specAbsSum, List.filterMap_cons]

theorem specRelSum_cons (s : Size) (rest : List Size) (length : ℚ) :
    specRelSum (s :: rest) length =
      (match s with | .Relative f r => r.clamp (length * f) | _ => 0) +
        specRelSum rest length := by
  cases s <;> simp [specRelSum, List.filterMap_cons]

theorem contribution_sum_split (sizes : List Size) (length : ℚ) :
    (sizes.map (contribution length)).sum =
      specAbsSum sizes + specRelSum sizes length := by
  induction sizes with
  | nil => simp [specAbsSum, specRelSum]
  | cons s rest ih =>
      rw [List.map_cons, List.sum_cons, ih, specAbsSum_cons, specRelSum_cons]
      cases s <;> simp [contribution] <;> ring

theorem remainderBudget_eq_specBudget (sizes : List Size) (length spacing : ℚ)
    (h : sizes ≠ []) :
    remainderBudget sizes length spacing = specBudget sizes length spacing := by
  unfold remainderBudget specBudget sumNonRemainder
  rw [contribution_sum_split]
  have hlen : 1 ≤ sizes.length := by
    cases sizes with
    | nil => exact absurd rfl h
    | cons a l => simp [Nat.succ_le_succ]
  rw [Nat.cast_sub hlen]
  push_cast
  ring

theorem floor_max_zero (x : ℚ) : ⌊Max.max 0 x⌋ = Max.max 0 ⌊x⌋ := by
  rcases le_total x 0 with h | h
  · rw [max_eq_left h, max_eq_left]
    · exact Int.floor_zero
    · exact le_trans (Int.floor_le_floor h) (le_of_eq Int.floor_zero)
  · rw [max_eq_right h, max_eq_right]
    rw [← Int.floor_zero (α := ℚ)]
    exact Int.floor_le_floor h

theorem initialAvg_eq_specInitialAvg (sizes : List Size) (length spacing : ℚ)
    (h : sizes ≠ []) :
    initialAvg sizes length spacing = specInitialAvg sizes length spacing := by
  unfold initialAvg specInitialAvg
  rw [remainderBudget_eq_specBudget sizes length spacing h, floor_max_zero]
  push_cast
  rfl

theorem specExcludedMins_cons_rem (a : ℚ) (r : Rangef) (rest : List Size) :
    specExcludedMins a (.Remainder r :: rest) =
      if a < r.min then r.min :: specExcludedMins a rest
      else specExcludedMins a rest := by
  by_cases hex : a < r.min <;> simp [specExcludedMins, List.filterMap_cons, hex]

theorem specExcludedMins_cons_abs (a : ℚ) (i : ℚ) (r : Rangef) (rest : List Size) :
    specExcludedMins a (.Absolute i r :: rest) = specExcludedMins a rest := by
  simp [specExcludedMins, List.filterMap_cons]

theorem specExcludedMins_cons_rel (a : ℚ) (f : ℚ) (r : Rangef) (rest : List Size) :
    specExcludedMins a (.Relative f r :: rest) = specExcludedMins a rest := by
  simp [specExcludedMins, List.filterMap_cons]

theorem sweep_eq (a : ℚ) (l : List Size) (b : ℚ) (k : ℕ) :
    sweep a l (b, k) =
      (b - (specExcludedMins a l).sum, k - (specExcludedMins a l).length) := by
  induction l generalizing b k with
  | nil => simp [sweep, specExcludedMins]
  | cons s rest ih =>
      cases s with
      | Remainder r =>
          rw [specExcludedMins_cons_rem]
          by_cases hex : a < r.min
          · rw [if_pos hex]
            simp only [sweep]
            rw [if_pos hex, ih]
            simp only [List.sum_cons, List.length_cons, Prod.mk.injEq]
            constructor
            · ring
            · omega
          · rw [if_neg hex]
            simp only [sweep]
            rw [if_neg hex, ih]
      | Absolute i r =>
          rw [specExcludedMins_cons_abs]
          simp only [sweep]
          rw [ih]
      | Relative f r =>
          rw [specExcludedMins_cons_rel]
          simp only [sweep]
          rw [ih]

theorem to_lengths_eq_map (sizes : List Size) (length spacing : ℚ)
    (hne : sizes ≠ []) (hok : fractionsOk sizes = true) :
    to_lengths sizes length spacing =
      some (sizes.map (slotLength length (avgRemainderLength sizes length spacing))) := by
  unfold to_lengths
  rw [if_neg (by simpa using hne), if_pos hok]

theorem numRemainders_pos_of_mem {r : Rangef} {sizes : List Size}
    (h : Size.Remainder r ∈ sizes) : 0 < numRemainders sizes := by
  unfold numRemainders
  have hmem : Size.Remainder r ∈ sizes.filter Size.is_remainder :=
    List.mem_filter.2 ⟨h, rfl⟩
  exact List.length_pos.2 (List.ne_nil_of_mem hmem)

theorem ne_nil_of_numRemainders_pos {sizes : List Size}
    (h : numRemainders sizes ≠ 0) : sizes ≠ [] := by
  intro hnil
  apply h
  rw [hnil]
  rfl

theorem avgRemainderLength_eq_specFinalAvg (sizes : List Size) (length spacing : ℚ)
    (hk : numRemainders sizes ≠ 0) :
    avgRemainderLength sizes length spacing = specFinalAvg sizes length spacing := by
  have hne : sizes ≠ [] := ne_nil_of_numRemainders_pos hk
  unfold avgRemainderLength specFinalAvg
  rw [if_neg hk]
  simp only [sweep_eq, initialAvg_eq_specInitialAvg _ _ _ hne,
    remainderBudget_eq_specBudget _ _ _ hne]
  rfl

end Sizing

open Sizing

/-- C1: for every non-empty policy list (whose Relative fractions pass the
assertion), `to_lengths` computes the remainder allocation exactly as the
spec describes: budget = total_length minus the Absolute initials and
range-clamped Relative sizes minus `spacing*(slot_count-1)`; initial average
`max(0, floor(budget/num_remainders))`; one in-order sweep subtracting the
`range.min` of each Remainder slot whose `range.min` exceeds the original
initial average (never recomputing the average); final shared average
`max(0, budget/survivors)` un-floored if any remainder slots survive, else
`0`; and each Remainder slot's output is its range's clamp of that final
average. -/
theorem to_lengths_remainder_allocation_follows_spec
    (sizes : List Size) (length spacing : ℚ)
    (hne : sizes ≠ []) (hok : fractionsOk sizes = true) :
    ∃ out, to_lengths sizes length spacing = some out ∧
      out.length = sizes.length ∧
      ∀ (i : ℕ) (h1 : i < out.length) (h2 : i < sizes.length) (r : Rangef),
        sizes[i] = Size.Remainder r →
        out[i] = r.clamp (specFinalAvg sizes length spacing) := by
  refine ⟨sizes.map (slotLength length (avgRemainderLength sizes length spacing)),
    to_lengths_eq_map sizes length spacing hne hok, by simp, ?_⟩
  intro i h1 h2 r hr
  rw [List.getElem_map, hr]
  have hpos : 0 < numRemainders sizes :=
    numRemainders_pos_of_mem (hr ▸ List.getElem_mem h2)
  have hk : numRemainders sizes ≠ 0 := by omega
  show r.clamp (avgRemainderLength sizes length spacing) = _
  rw [avgRemainderLength_eq_specFinalAvg sizes length spacing hk]

/-- Witness for C1 at the concrete list `[remainder().at_least(20), remainder()]`,
`total_length = 30`, `spacing = 0`. -/
theorem to_lengths_remainder_allocation_follows_spec_witness :
    ∃ out, to_lengths [Size.remainder.at_least 20, Size.remainder] 30 0 = some out ∧
      out.length = 2 ∧
      ∀ (i : ℕ) (h1 : i < out.length)
        (h2 : i < ([Size.remainder.at_least 20, Size.remainder] : List Size).length)
        (r : Rangef),
        ([Size.remainder.at_least 20, Size.remainder] : List Size)[i] = Size.Remainder r →
        out[i] = r.clamp (specFinalAvg [Size.remainder.at_least 20, Size.remainder] 30 0) :=
  to_lengths_remainder_allocation_follows_spec
    [Size.remainder.at_least 20, Size.remainder] 30 0 (by simp) (by rfl)

/-- C7: for every `total_length` and `spacing`, `to_lengths` on the empty
policy list returns the empty list. -/
theorem to_lengths_empty (length spacing : ℚ) :
    to_lengths [] length spacing = some [] := rfl

/-- C3: the unit-test values for remainder splitting: two plain `remainder()`
slots split `50` evenly; with the first slot raised to `at_least(20)` the
minimum wins even when the budget is insufficient, and spacing is subtracted
from the shared budget first. -/
theorem to_lengths_remainder_split_examples :
    to_lengths [Size.remainder, Size.remainder] 50 0 = some [25, 25] ∧
    to_lengths [Size.remainder.at_least 20, Size.remainder] 30 0 = some [20, 10] ∧
    to_lengths [Size.remainder.at_least 20, Size.remainder] 20 0 = some [20, 0] ∧
    to_lengths [Size.remainder.at_least 20, Size.remainder] 10 0 = some [20, 0] ∧
    to_lengths [Size.remainder.at_least 20, Size.remainder] 110 10 = some [50, 50] := by
  refine ⟨?_, ?_, ?_, ?_, ?_⟩ <;>
    norm_num [Sizing.to_lengths, Sizing.fractionsOk, Sizing.avgRemainderLength,
      Sizing.numRemainders, Sizing.sumNonRemainder, Sizing.contribution,
      Sizing.remainderBudget, Sizing.initialAvg, Sizing.sweep, Sizing.slotLength,
      Size.remainder, Size.at_least, Size.is_remainder, Rangef.clamp, Rangef.newInf,
      max_def, min_def, Int.floor_eq_iff]

/-- C5: the unit-test values for the mixed list
`[relative(0.5).at_least(10), exact(10)]` with spacing `0`: the relative
slot's `at_least` floor is enforced by output clamping. -/
theorem to_lengths_relative_exact_examples :
    to_lengths [(Size.relative (1/2)).at_least 10, Size.exact 10] 50 0 = some [25, 10] ∧
    to_lengths [(Size.relative (1/2)).at_least 10, Size.exact 10] 30 0 = some [15, 10] ∧
    to_lengths [(Size.relative (1/2)).at_least 10, Size.exact 10] 20 0 = some [10, 10] ∧
    to_lengths [(Size.relative (1/2)).at_least 10, Size.exact 10] 10 0 = some [10, 10] := by
  refine ⟨?_, ?_, ?_, ?_⟩ <;>
    norm_num [Sizing.to_lengths, Sizing.fractionsOk, Sizing.avgRemainderLength,
      Sizing.numRemainders, Sizing.sumNonRemainder, Sizing.contribution,
      Sizing.remainderBudget, Sizing.initialAvg, Sizing.sweep, Sizing.slotLength,
      Size.remainder, Size.at_least, Size.relative, Size.exact, Size.is_remainder,
      Size.fractionInRange, Rangef.clamp, Rangef.newInf, Rangef.new,
      max_def, min_def, Int.floor_eq_iff]

theorem fractionsOk_map_exact (vs : List ℚ) :
    fractionsOk (vs.map Size.exact) = true := by
  unfold fractionsOk
  rw [List.all_eq_true]
  intro s hs
  rcases List.mem_map.1 hs with ⟨v, _, rfl⟩
  rfl

theorem map_slotLength_exact (vs : List ℚ) (length a : ℚ) :
    (vs.map Size.exact).map (slotLength length a) = vs := by
  induction vs with
  | nil => rfl
  | cons v rest ih => simp only [List.map_cons, ih]; rfl

/-- C6: for every list consisting only of `exact(v_i)` policies and all
`total_length` and `spacing`, `to_lengths` returns exactly `[v_1, ..., v_n]`:
an Absolute slot's output is its initial value, unclamped and independent of
`total_length` and `spacing`. -/
theorem to_lengths_exact_list (vs : List ℚ) (length spacing : ℚ) :
    to_lengths (vs.map Size.exact) length spacing = some vs := by
  cases vs with
  | nil => rfl
  | cons v rest =>
      rw [to_lengths_eq_map _ _ _ (by simp) (fractionsOk_map_exact _),
        map_slotLength_exact]

theorem to_lengths_entries (sizes : List Size) (length spacing : ℚ)
    (out : List ℚ) (h : to_lengths sizes length spacing = some out) :
    out.length = sizes.length ∧
    ∀ (i : ℕ) (h1 : i < out.length) (h2 : i < sizes.length),
      out[i] = slotLength length (avgRemainderLength sizes length spacing) sizes[i] := by
  unfold to_lengths at h
  by_cases he : sizes.isEmpty
  · rw [if_pos he] at h
    have hs : sizes = [] := by simpa using he
    have ho : out = [] := by
      cases h
      rfl
    subst hs
    subst ho
    exact ⟨rfl, by intro i h1 h2; simp at h1⟩
  · rw [if_neg he] at h
    by_cases hok : fractionsOk sizes = true
    · rw [if_pos hok] at h
      have ho : out = sizes.map (slotLength length (avgRemainderLength sizes length spacing)) := by
        cases h
        rfl
      subst ho
      refine ⟨by simp, ?_⟩
      intro i h1 h2
      rw [List.getElem_map]
    · rw [if_neg hok] at h
      cases h

theorem to_lengths_isSome_of_fractionsOk (sizes : List Size) (length spacing : ℚ)
    (hok : fractionsOk sizes = true) :
    (to_lengths sizes length spacing).isSome = true := by
  by_cases he : sizes.isEmpty
  · unfold to_lengths
    rw [if_pos he]
    rfl
  · rw [to_lengths_eq_map sizes length spacing (by simpa using he) hok]
    rfl

/-- C8: for every policy list, `total_length` and `spacing`, the output of
`to_lengths` has exactly one entry per policy, and entry `i` is the length
computed for policy `i` (output order matches insertion order). -/
theorem to_lengths_order_preservation (sizes : List Size) (length spacing : ℚ)
    (out : List ℚ) (h : to_lengths sizes length spacing = some out) :
    out.length = sizes.length ∧
    ∀ (i : ℕ) (h1 : i < out.length) (h2 : i < sizes.length),
      out[i] = slotLength length (avgRemainderLength sizes length spacing) sizes[i] :=
  to_lengths_entries sizes length spacing out h

/-- Witness for C8 at the concrete list `[exact(7)]`, `total_length = 3`,
`spacing = 1`. -/
theorem to_lengths_order_preservation_witness :
    ([(7:ℚ)]).length = ([Size.exact 7] : List Size).length ∧
    ∀ (i : ℕ) (h1 : i < ([(7:ℚ)]).length)
      (h2 : i < ([Size.exact 7] : List Size).length),
      [(7:ℚ)][i] =
        slotLength 3 (avgRemainderLength [Size.exact 7] 3 1)
          ([Size.exact 7] : List Size)[i] :=
  to_lengths_order_preservation [Size.exact 7] 3 1 [7]
    (by
      norm_num [Sizing.to_lengths, Sizing.fractionsOk, Sizing.avgRemainderLength,
        Sizing.numRemainders, Sizing.sumNonRemainder, Sizing.contribution,
        Sizing.remainderBudget, Sizing.initialAvg, Sizing.sweep, Sizing.slotLength,
        Size.exact, Size.is_remainder, Rangef.clamp, Rangef.new, max_def, min_def])

/-- C10: the `usize` subtraction `self.sizes.len() - 1` in the spacing term
is only evaluated on non-empty lists (the early return yields `[]` on the
empty list), where it cannot underflow; and apart from the fraction
assertion, `to_lengths` is total. -/
theorem to_lengths_spacing_subtraction_safe (sizes : List Size) (length spacing : ℚ) :
    (sizes = [] → to_lengths sizes length spacing = some []) ∧
    (sizes ≠ [] → ((sizes.length - 1 : ℕ) : ℤ) = (sizes.length : ℤ) - 1) ∧
    (fractionsOk sizes = true → (to_lengths sizes length spacing).isSome = true) := by
  refine ⟨?_, ?_, ?_⟩
  · rintro rfl
    rfl
  · intro h
    have h1 : 1 ≤ sizes.length := List.length_pos.2 h
    omega
  · exact to_lengths_isSome_of_fractionsOk sizes length spacing

/-- Witness for C10 at the concrete list `[exact(5)]`, `total_length = 2`,
`spacing = 3`. -/
theorem to_lengths_spacing_subtraction_safe_witness :
    ((([Size.exact 5] : List Size).length - 1 : ℕ) : ℤ) =
        (([Size.exact 5] : List Size).length : ℤ) - 1 ∧
      (to_lengths [Size.exact 5] 2 3).isSome = true :=
  ⟨(to_lengths_spacing_subtraction_safe [Size.exact 5] 2 3).2.1 (by simp),
    (to_lengths_spacing_subtraction_safe [Size.exact 5] 2 3).2.2 (fractionsOk_map_exact [5])⟩

/-- C4: `to_lengths` halts with the fatal fraction contract violation
exactly when some `Relative` fraction lies outside `[0, 1]` (modelled as
returning `none`); for every policy list whose fractions are all in range it
raises no error for any `total_length` or `spacing`; and `Size::relative`'s
debug assertion checks the same fraction predicate. -/
theorem to_lengths_fraction_contract (sizes : List Size) (length spacing : ℚ) :
    ((∃ f r, Size.Relative f r ∈ sizes ∧ ¬ Size.fractionInRange f) →
      to_lengths sizes length spacing = none) ∧
    (fractionsOk sizes = true → (to_lengths sizes length spacing).isSome = true) ∧
    (∀ f, Size.fractionInRange f ↔ fractionsOk [Size.relative f] = true) := by
  refine ⟨?_, to_lengths_isSome_of_fractionsOk sizes length spacing, ?_⟩
  · rintro ⟨f, r, hmem, hbad⟩
    have hne : sizes ≠ [] := List.ne_nil_of_mem hmem
    have hok : ¬ fractionsOk sizes = true := fun hok =>
      hbad ((fractionsOk_iff sizes).1 hok f r hmem)
    unfold to_lengths
    rw [if_neg (by simpa using hne), if_neg hok]
  · intro f
    unfold fractionsOk Size.relative
    simp

/-- Witness for C4: `relative(1.5)` aborts the computation, while the
in-range list `[relative(0.5)]` computes a value. -/
theorem to_lengths_fraction_contract_witness :
    to_lengths [Size.relative (3/2)] 5 0 = none ∧
      (to_lengths [Size.relative (1/2)] 5 0).isSome = true :=
  ⟨(to_lengths_fraction_contract [Size.relative (3/2)] 5 0).1
      ⟨3/2, Rangef.newInf 0, by simp [Size.relative], by
        unfold Size.fractionInRange
        norm_num⟩,
    (to_lengths_fraction_contract [Size.relative (1/2)] 5 0).2.1
      (by
        unfold fractionsOk Size.relative
        simp
        unfold Size.fractionInRange
        norm_num)⟩

theorem numRemainders_cons (s : Size) (rest : List Size) :
    numRemainders (s :: rest) =
      (if Size.is_remainder s then 1 else 0) + numRemainders rest := by
  cases s <;> (simp [numRemainders, List.filter_cons, Size.is_remainder]; try omega)

theorem specExcludedMins_all (a : ℚ) (sizes : List Size)
    (h : ∀ r : Rangef, Size.Remainder r ∈ sizes → a < r.min) :
    (specExcludedMins a sizes).length = numRemainders sizes := by
  induction sizes with
  | nil => rfl
  | cons s rest ih =>
      have hrest : ∀ r : Rangef, Size.Remainder r ∈ rest → a < r.min := fun r hr =>
        h r (List.mem_cons_of_mem s hr)
      cases s with
      | Remainder r =>
          rw [specExcludedMins_cons_rem, if_pos (h r (List.mem_cons_self _ _)),
            numRemainders_cons]
          simp [Size.is_remainder, ih hrest]
          omega
      | Absolute i r =>
          rw [specExcludedMins_cons_abs, numRemainders_cons]
          simp [Size.is_remainder, ih hrest]
      | Relative f r =>
          rw [specExcludedMins_cons_rel, numRemainders_cons]
          simp [Size.is_remainder, ih hrest]

/-- C9: if the exclusion sweep excludes every Remainder slot (each slot's
`range.min` exceeds the floored initial average), the final shared average is
`0` and each Remainder slot receives `range.clamp(0)`; moreover there are
inputs (here `[remainder().at_least(25.5), remainder().at_least(25.5)]` at
`total_length = 51.9`, `spacing = 0`) where the pre-sweep budget is positive
yet the outputs plus total spacing sum to strictly less than `total_length`:
the leftover budget is discarded. -/
theorem to_lengths_all_excluded :
    (∀ (sizes : List Size) (length spacing : ℚ),
      (∀ r : Rangef, Size.Remainder r ∈ sizes →
        initialAvg sizes length spacing < r.min) →
      avgRemainderLength sizes length spacing = 0 ∧
      ∀ out, to_lengths sizes length spacing = some out →
        ∀ (i : ℕ) (h1 : i < out.length) (h2 : i < sizes.length) (r : Rangef),
          sizes[i] = Size.Remainder r → out[i] = r.clamp 0) ∧
    (to_lengths
        [Size.remainder.at_least (51/2), Size.remainder.at_least (51/2)]
        (519/10) 0 = some [51/2, 51/2] ∧
      0 < remainderBudget
        [Size.remainder.at_least (51/2), Size.remainder.at_least (51/2)]
        (519/10) 0 ∧
      (51/2 : ℚ) + 51/2 + 0 * ((2:ℚ) - 1) < 519/10) := by
  constructor
  · intro sizes length spacing hall
    have havg : avgRemainderLength sizes length spacing = 0 := by
      unfold avgRemainderLength
      by_cases hk : numRemainders sizes = 0
      · rw [if_pos hk]
      · rw [if_neg hk]
        simp only [sweep_eq, specExcludedMins_all _ _ hall]
        rw [if_neg (by omega)]
    refine ⟨havg, ?_⟩
    intro out hout i h1 h2 r hr
    obtain ⟨-, hentry⟩ := to_lengths_entries sizes length spacing out hout
    rw [hentry i h1 h2, hr, havg]
    rfl
  · refine ⟨?_, ?_, ?_⟩
    · norm_num [Sizing.to_lengths, Sizing.fractionsOk, Sizing.avgRemainderLength,
        Sizing.numRemainders, Sizing.sumNonRemainder, Sizing.contribution,
        Sizing.remainderBudget, Sizing.initialAvg, Sizing.sweep, Sizing.slotLength,
        Size.remainder, Size.at_least, Size.is_remainder, Rangef.clamp, Rangef.newInf,
        max_def, min_def, Int.floor_eq_iff]
    · norm_num [Sizing.remainderBudget, Sizing.sumNonRemainder, Sizing.contribution,
        Size.remainder, Size.at_least, Size.is_remainder, Rangef.clamp, Rangef.newInf]
    · norm_num

/-- Witness for C9's universally quantified part, at the concrete list of two
`remainder().at_least(25.5)` slots with `total_length = 51.9`, `spacing = 0`
(the floored initial average is `25 < 25.5`, so both slots are excluded). -/
theorem to_lengths_all_excluded_witness :
    avgRemainderLength
        [Size.remainder.at_least (51/2), Size.remainder.at_least (51/2)]
        (519/10) 0 = 0 ∧
    ∀ out, to_lengths
        [Size.remainder.at_least (51/2), Size.remainder.at_least (51/2)]
        (519/10) 0 = some out →
      ∀ (i : ℕ) (h1 : i < out.length)
        (h2 : i < ([Size.remainder.at_least (51/2),
          Size.remainder.at_least (51/2)] : List Size).length) (r : Rangef),
        ([Size.remainder.at_least (51/2),
          Size.remainder.at_least (51/2)] : List Size)[i] = Size.Remainder r →
        out[i] = r.clamp 0 :=
  to_lengths_all_excluded.1
    [Size.remainder.at_least (51/2), Size.remainder.at_least (51/2)] (519/10) 0
    (by
      intro r hr
      have hrr : Size.Remainder r = Size.Remainder ⟨51/2, none⟩ := by
        rcases List.mem_cons.1 hr with h | h
        · exact h
        · rcases List.mem_cons.1 h with h2 | h2
          · exact h2
          · simp at h2
      injection hrr with h3
      subst h3
      norm_num [Sizing.initialAvg, Sizing.remainderBudget, Sizing.sumNonRemainder,
        Sizing.contribution, Sizing.numRemainders, Size.remainder, Size.at_least,
        Size.is_remainder, Rangef.clamp, Rangef.newInf, max_def, min_def,
        Int.floor_eq_iff])

theorem Rangef.clamp_mono (r : Rangef) {x y : ℚ} (h : x ≤ y) :
    r.clamp x ≤ r.clamp y := by
  obtain ⟨mn, mx⟩ := r
  cases mx with
  | none => exact max_le_max le_rfl h
  | some m => exact min_le_min le_rfl (max_le_max le_rfl h)

theorem max_lipschitz (mn : ℚ) {x y : ℚ} (h : x ≤ y) :
    Max.max mn y ≤ Max.max mn x + (y - x) := by
  apply max_le
  · have h1 : mn ≤ Max.max mn x := le_max_left _ _
    linarith
  · have h2 : x ≤ Max.max mn x := le_max_right _ _
    linarith

theorem Rangef.clamp_lipschitz (r : Rangef) {x y : ℚ} (h : x ≤ y) :
    r.clamp y ≤ r.clamp x + (y - x) := by
  obtain ⟨mn, mx⟩ := r
  cases mx with
  | none => exact max_lipschitz mn h
  | some m =>
      show Min.min m (Max.max mn y) ≤ Min.min m (Max.max mn x) + (y - x)
      rcases le_total m (Max.max mn x) with hc | hc
      · rw [min_eq_left hc]
        have h1 : Min.min m (Max.max mn y) ≤ m := min_le_left _ _
        linarith
      · rw [min_eq_right hc]
        have h1 : Min.min m (Max.max mn y) ≤ Max.max mn y := min_le_right _ _
        have h2 := max_lipschitz mn h
        linarith

theorem contribution_le (s : Size) (L1 L2 : ℚ) (hL : L1 ≤ L2)
    (hf : 0 ≤ sizeFrac s) :
    contribution L2 s ≤ contribution L1 s + sizeFrac s * (L2 - L1) := by
  cases s with
  | Absolute i r => simp [contribution, sizeFrac]
  | Remainder r => simp [contribution, sizeFrac]
  | Relative f r =>
      show r.clamp (L2 * f) ≤ r.clamp (L1 * f) + f * (L2 - L1)
      have hf' : (0:ℚ) ≤ f := hf
      have hxy : L1 * f ≤ L2 * f := mul_le_mul_of_nonneg_right hL hf'
      have hlip := Rangef.clamp_lipschitz r hxy
      calc r.clamp (L2 * f) ≤ r.clamp (L1 * f) + (L2 * f - L1 * f) := hlip
        _ = r.clamp (L1 * f) + f * (L2 - L1) := by ring

theorem relFracSum_cons (s : Size) (rest : List Size) :
    relFracSum (s :: rest) = sizeFrac s + relFracSum rest := by
  simp [relFracSum]

theorem contribution_sum_le (sizes : List Size) (L1 L2 : ℚ)
    (hfr : ∀ f r, Size.Relative f r ∈ sizes → 0 ≤ f) (hL : L1 ≤ L2) :
    (sizes.map (contribution L2)).sum ≤
      (sizes.map (contribution L1)).sum + relFracSum sizes * (L2 - L1) := by
  induction sizes with
  | nil => simp [relFracSum]
  | cons s rest ih =>
      have hrest : ∀ f r, Size.Relative f r ∈ rest → 0 ≤ f := fun f r hr =>
        hfr f r (List.mem_cons_of_mem s hr)
      have hhead : 0 ≤ sizeFrac s := by
        cases s with
        | Relative f r => exact hfr f r (List.mem_cons_self _ _)
        | Absolute i r => exact le_refl 0
        | Remainder r => exact le_refl 0
      have h1 := contribution_le s L1 L2 hL hhead
      have h2 := ih hrest
      rw [List.map_cons, List.map_cons, List.sum_cons, List.sum_cons, relFracSum_cons]
      have : (sizeFrac s + relFracSum rest) * (L2 - L1) =
          sizeFrac s * (L2 - L1) + relFracSum rest * (L2 - L1) := by ring
      rw [this]
      linarith

theorem remainderBudget_mono (sizes : List Size) (L1 L2 spacing : ℚ)
    (hfr : ∀ f r, Size.Relative f r ∈ sizes → 0 ≤ f)
    (hsum : relFracSum sizes ≤ 1) (hL : L1 ≤ L2) :
    remainderBudget sizes L1 spacing ≤ remainderBudget sizes L2 spacing := by
  unfold remainderBudget sumNonRemainder
  have h := contribution_sum_le sizes L1 L2 hfr hL
  have h2 : relFracSum sizes * (L2 - L1) ≤ 1 * (L2 - L1) :=
    mul_le_mul_of_nonneg_right hsum (by linarith)
  rw [one_mul] at h2
  linarith

theorem initialAvg_mono (sizes : List Size) (L1 L2 spacing : ℚ)
    (hb : remainderBudget sizes L1 spacing ≤ remainderBudget sizes L2 spacing) :
    initialAvg sizes L1 spacing ≤ initialAvg sizes L2 spacing := by
  unfold initialAvg
  have hdiv : remainderBudget sizes L1 spacing / (numRemainders sizes : ℚ) ≤
      remainderBudget sizes L2 spacing / (numRemainders sizes : ℚ) := by
    rcases Nat.eq_zero_or_pos (numRemainders sizes) with hk | hk
    · rw [hk]
      simp
    · have hkq : (0:ℚ) < (numRemainders sizes : ℚ) := by positivity
      exact (div_le_div_iff_of_pos_right hkq).2 hb
  have hmax : Max.max 0 (remainderBudget sizes L1 spacing / (numRemainders sizes : ℚ)) ≤
      Max.max 0 (remainderBudget sizes L2 spacing / (numRemainders sizes : ℚ)) :=
    max_le_max le_rfl hdiv
  exact_mod_cast Int.floor_le_floor hmax

theorem specExcludedMins_nil_of (a : ℚ) (sizes : List Size)
    (h : ∀ r : Rangef, Size.Remainder r ∈ sizes → r.min ≤ a) :
    specExcludedMins a sizes = [] := by
  induction sizes with
  | nil => rfl
  | cons s rest ih =>
      have hrest : ∀ r : Rangef, Size.Remainder r ∈ rest → r.min ≤ a := fun r hr =>
        h r (List.mem_cons_of_mem s hr)
      cases s with
      | Remainder r =>
          rw [specExcludedMins_cons_rem,
            if_neg (not_lt.2 (h r (List.mem_cons_self _ _))), ih hrest]
      | Absolute i r => rw [specExcludedMins_cons_abs, ih hrest]
      | Relative f r => rw [specExcludedMins_cons_rel, ih hrest]

theorem avgRemainderLength_no_exclusion (sizes : List Size) (length spacing : ℚ)
    (hk : numRemainders sizes ≠ 0)
    (h : ∀ r : Rangef, Size.Remainder r ∈ sizes →
      r.min ≤ initialAvg sizes length spacing) :
    avgRemainderLength sizes length spacing =
      Max.max 0 (remainderBudget sizes length spacing / (numRemainders sizes : ℚ)) := by
  unfold avgRemainderLength
  rw [if_neg hk]
  simp only [sweep_eq, specExcludedMins_nil_of _ _ h]
  simp only [List.sum_nil, List.length_nil, Nat.sub_zero, sub_zero]
  rw [if_pos (Nat.pos_of_ne_zero hk)]

/-- C2 counterexample: for the fixed policy list
`[remainder().at_least(10.5), remainder()]` with spacing `0` — a list with no
Absolute or Relative slots at all, so every higher-priority demand is
vacuously satisfied — raising `total_length` from `21.9` to `22` strictly
DECREASES both Remainder entries (`[11.4, 11.4]` becomes `[11, 11]`): the
floored initial average drops from `10` (which excludes the first slot,
leaving the whole `21.9 - 10.5 = 11.4` to each clamp) to `11` (no exclusion,
shared average `11`). -/
theorem to_lengths_monotonicity_counterexample :
    (219/10 : ℚ) ≤ 22 ∧
    to_lengths [Size.remainder.at_least (21/2), Size.remainder] (219/10) 0 =
      some [57/5, 57/5] ∧
    to_lengths [Size.remainder.at_least (21/2), Size.remainder] 22 0 =
      some [11, 11] ∧
    (11 : ℚ) < 57/5 := by
  refine ⟨by norm_num, ?_, ?_, by norm_num⟩ <;>
    norm_num [Sizing.to_lengths, Sizing.fractionsOk, Sizing.avgRemainderLength,
      Sizing.numRemainders, Sizing.sumNonRemainder, Sizing.contribution,
      Sizing.remainderBudget, Sizing.initialAvg, Sizing.sweep, Sizing.slotLength,
      Size.remainder, Size.at_least, Size.is_remainder, Rangef.clamp, Rangef.newInf,
      max_def, min_def, Int.floor_eq_iff]

/-- C2 (amended): for a fixed policy list whose Relative fractions pass the
assertion and sum to at most `1`, and a fixed spacing, if `L1 ≤ L2` and every
Remainder slot's `range.min` is at most the floored initial average at `L1`
(so the exclusion sweep excludes no slot at `L1`), then no Remainder slot's
entry of `to_lengths(L2, spacing)` is smaller than its entry of
`to_lengths(L1, spacing)`. -/
theorem to_lengths_remainder_monotone (sizes : List Size) (L1 L2 spacing : ℚ)
    (hok : fractionsOk sizes = true)
    (hsum : relFracSum sizes ≤ 1)
    (hmins : ∀ r : Rangef, Size.Remainder r ∈ sizes →
      r.min ≤ initialAvg sizes L1 spacing)
    (hL : L1 ≤ L2) :
    ∀ out1 out2, to_lengths sizes L1 spacing = some out1 →
      to_lengths sizes L2 spacing = some out2 →
      ∀ (i : ℕ) (h1 : i < out1.length) (h2 : i < out2.length)
        (hs : i < sizes.length) (r : Rangef),
        sizes[i] = Size.Remainder r → out1[i] ≤ out2[i] := by
  intro out1 out2 ho1 ho2 i h1 h2 hs r hr
  obtain ⟨-, he1⟩ := to_lengths_entries sizes L1 spacing out1 ho1
  obtain ⟨-, he2⟩ := to_lengths_entries sizes L2 spacing out2 ho2
  rw [he1 i h1 hs, he2 i h2 hs, hr]
  show r.clamp (avgRemainderLength sizes L1 spacing) ≤
    r.clamp (avgRemainderLength sizes L2 spacing)
  apply Rangef.clamp_mono
  have hpos : 0 < numRemainders sizes :=
    numRemainders_pos_of_mem (hr ▸ List.getElem_mem hs)
  have hk : numRemainders sizes ≠ 0 := by omega
  have hfr : ∀ f rr, Size.Relative f rr ∈ sizes → 0 ≤ f := fun f rr hm =>
    ((fractionsOk_iff sizes).1 hok f rr hm).1
  have hb := remainderBudget_mono sizes L1 L2 spacing hfr hsum hL
  have ha := initialAvg_mono sizes L1 L2 spacing hb
  have hmins2 : ∀ rr : Rangef, Size.Remainder rr ∈ sizes →
      rr.min ≤ initialAvg sizes L2 spacing := fun rr hm =>
    le_trans (hmins rr hm) ha
  rw [avgRemainderLength_no_exclusion sizes L1 spacing hk hmins,
    avgRemainderLength_no_exclusion sizes L2 spacing hk hmins2]
  apply max_le_max le_rfl
  rcases Nat.eq_zero_or_pos (numRemainders sizes) with hz | hz
  · omega
  · have hkq : (0:ℚ) < (numRemainders sizes : ℚ) := by positivity
    exact (div_le_div_iff_of_pos_right hkq).2 hb

/-- Witness for the amended C2 at the concrete list `[remainder()]`,
`spacing = 0`, `L1 = 3 ≤ L2 = 5`: the single Remainder entry rises
from `3` to `5`. -/
theorem to_lengths_remainder_monotone_witness :
    to_lengths [Size.remainder] 3 0 = some [(3:ℚ)] ∧
    to_lengths [Size.remainder] 5 0 = some [(5:ℚ)] ∧
    ([(3:ℚ)])[0] ≤ ([(5:ℚ)])[0] := by
  have h1 : to_lengths [Size.remainder] 3 0 = some [(3:ℚ)] := by
    norm_num [Sizing.to_lengths, Sizing.fractionsOk, Sizing.avgRemainderLength,
      Sizing.numRemainders, Sizing.sumNonRemainder, Sizing.contribution,
      Sizing.remainderBudget, Sizing.initialAvg, Sizing.sweep, Sizing.slotLength,
      Size.remainder, Size.is_remainder, Rangef.clamp, Rangef.newInf,
      max_def, min_def, Int.floor_eq_iff]
  have h2 : to_lengths [Size.remainder] 5 0 = some [(5:ℚ)] := by
    norm_num [Sizing.to_lengths, Sizing.fractionsOk, Sizing.avgRemainderLength,
      Sizing.numRemainders, Sizing.sumNonRemainder, Sizing.contribution,
      Sizing.remainderBudget, Sizing.initialAvg, Sizing.sweep, Sizing.slotLength,
      Size.remainder, Size.is_remainder, Rangef.clamp, Rangef.newInf,
      max_def, min_def, Int.floor_eq_iff]
  refine ⟨h1, h2, ?_⟩
  apply to_lengths_remainder_monotone [Size.remainder] 3 5 0 (by rfl)
    (by norm_num [relFracSum, sizeFrac, Size.remainder])
    ?_ (by norm_num) [(3:ℚ)] [(5:ℚ)] h1 h2 0 (by simp) (by simp) (by simp)
    ⟨0, none⟩ (by rfl)
  intro r hr
  have hrr : Size.Remainder r = Size.Remainder ⟨0, none⟩ := by
    rcases List.mem_cons.1 hr with h | h
    · exact h
    · simp at h
  injection hrr with h3
  subst h3
  show (0:ℚ) ≤ initialAvg [Size.remainder] 3 0
  norm_num [Sizing.initialAvg, Sizing.remainderBudget, Sizing.sumNonRemainder,
    Sizing.contribution, Sizing.numRemainders, Size.remainder, Size.is_remainder,
    Rangef.clamp, Rangef.newInf, max_def, min_def, Int.floor_eq_iff]

